import Mathlib

/-!
Verification of natural-language specification claims for the wenh06/cinc2021
repository (CinC2021 ECG classification challenge code), against a shallow
Lean embedding of the relevant Python source.

Embedded parts:
* `ensure_siglen` from `torch_ecg_bak/torch_ecg/utils/misc.py` (windowing);
* `CINC2021._check_train_test_split_validity` and the retry loop of
  `CINC2021._train_test_split` from `dataset.py`;
* the checkpoint-rotation, flooding-loss, early-stopping and fail-fast
  optimizer/scheduler selection logic of `train` in
  `official_phase_legacy/trainer.py`;
* the `evaluate` function of `official_phase_legacy/trainer.py`
  (augmentation-flag and model-mode handling around fallible inference).
-/

namespace Cinc2021

/-! ## `ensure_siglen` (torch_ecg utils/misc.py)

The Python function receives a leads-by-samples 2-D array (format
"lead_first"); `original_siglen = _values.shape[1]` is the common per-lead
length.  We embed signals as `List (List ℤ)` (each inner list one lead); the
numpy shape is recovered from the first lead, and theorems assume all leads
share the same length (as a numpy 2-D array guarantees).

Python:
```
if original_siglen >= siglen:
    start = (original_siglen - siglen) // 2
    end = start + siglen
    out_values = _values[..., start:end]
else:
    pad_len = siglen - original_siglen
    pad_left = pad_len // 2
    pad_right = pad_len - pad_left
    out_values = np.concatenate(
        [np.zeros((n_leads, pad_left)), _values, np.zeros((n_leads, pad_right))],
        axis=1)
```
-/

def ensure_siglen (values : List (List ℤ)) (siglen : ℕ) : List (List ℤ) :=
  let original_siglen := (values.headD []).length
  if siglen ≤ original_siglen then
    let start := (original_siglen - siglen) / 2
    values.map (fun lead => (lead.drop start).take siglen)
  else
    let pad_len := siglen - original_siglen
    let pad_left := pad_len / 2
    let pad_right := pad_len - pad_left
    values.map (fun lead =>
      List.replicate pad_left 0 ++ lead ++ List.replicate pad_right 0)

end Cinc2021

namespace Cinc2021

/-- Unfolding of `ensure_siglen` in the crop branch. -/
lemma ensure_siglen_crop (values : List (List ℤ)) (siglen : ℕ)
    (h : siglen ≤ (values.headD []).length) :
    ensure_siglen values siglen =
      values.map (fun lead =>
        (lead.drop (((values.headD []).length - siglen) / 2)).take siglen) := by
  simp only [ensure_siglen]
  rw [if_pos h]

/-- Unfolding of `ensure_siglen` in the padding branch. -/
lemma ensure_siglen_pad (values : List (List ℤ)) (siglen : ℕ)
    (h : ¬ siglen ≤ (values.headD []).length) :
    ensure_siglen values siglen =
      values.map (fun lead =>
        List.replicate ((siglen - (values.headD []).length) / 2) 0 ++ lead ++
        List.replicate ((siglen - (values.headD []).length) -
          (siglen - (values.headD []).length) / 2) 0) := by
  simp only [ensure_siglen]
  rw [if_neg h]

/-- An element of a `take` of a `drop`, as an element of the original list. -/
lemma getD_take_drop (l : List ℤ) (s t k : ℕ) (hk : k < t) :
    ((l.drop s).take t).getD k 0 = l.getD (s + k) 0 := by
  rw [List.getD_eq_getElem?_getD, List.getD_eq_getElem?_getD]
  rw [List.getElem?_take_of_lt hk, List.getElem?_drop]

/-- Reading through a `map`, inside the list. -/
lemma getD_map_of_lt (values : List (List ℤ)) (f : List ℤ → List ℤ)
    (i : ℕ) (hi : i < values.length) :
    (values.map f).getD i [] = f (values.getD i []) := by
  rw [List.getD_eq_getElem?_getD, List.getD_eq_getElem?_getD, List.getElem?_map,
    List.getElem?_eq_getElem hi]
  rfl

/-- The head of a uniform-length list of leads has that length. -/
lemma headD_length_of_uniform (values : List (List ℤ)) (L : ℕ)
    (hL : ∀ lead ∈ values, lead.length = L) (hne : values ≠ []) :
    (values.headD []).length = L := by
  cases values with
  | nil => exact absurd rfl hne
  | cons a as => exact hL a (List.mem_cons_self a as)

/-- C2: for per-lead length `L ≥ siglen`, `ensure_siglen` takes the central
contiguous slice of length `siglen`: element `k` of each output lead is
element `(L - siglen)/2 + k` of the input lead; and when `L = siglen` the
input is returned unchanged. -/
theorem ensure_siglen_central_crop (values : List (List ℤ)) (siglen L : ℕ)
    (hL : ∀ lead ∈ values, lead.length = L) (hs : siglen ≤ L) :
    (∀ i, i < values.length → ∀ k, k < siglen →
        ((ensure_siglen values siglen).getD i []).getD k 0 =
          (values.getD i []).getD ((L - siglen) / 2 + k) 0) ∧
    (siglen = L → ensure_siglen values siglen = values) := by
  constructor
  · intro i hi k hk
    have hne : values ≠ [] := by
      intro hcon
      rw [hcon] at hi
      exact absurd hi (by simp)
    have hhead := headD_length_of_uniform values L hL hne
    rw [ensure_siglen_crop values siglen (by rw [hhead]; exact hs)]
    rw [getD_map_of_lt values _ i hi, hhead, getD_take_drop _ _ _ _ hk]
  · intro hsl
    cases values with
    | nil => simp [ensure_siglen]
    | cons a as =>
        have hhead := headD_length_of_uniform (a :: as) L hL (by simp)
        rw [ensure_siglen_crop (a :: as) siglen (by rw [hhead]; exact hs)]
        have : ∀ lead ∈ (a :: as),
            (lead.drop ((((a :: as).headD []).length - siglen) / 2)).take siglen =
              lead := by
          intro lead hmem
          rw [hhead, hsl, Nat.sub_self, Nat.zero_div, List.drop_zero]
          exact List.take_of_length_le (le_of_eq (hL lead hmem))
        rw [List.map_congr_left this]
        simp

/-- C3: for per-lead length `L < siglen` with deficit `d = siglen - L`,
each output lead of `ensure_siglen` is exactly `⌊d/2⌋` zeros, then the
original lead unchanged, then `⌈d/2⌉ = (d+1)/2` zeros, and its total length
is exactly `siglen`. -/
theorem ensure_siglen_pad_symmetric (values : List (List ℤ)) (siglen L : ℕ)
    (hL : ∀ lead ∈ values, lead.length = L) (hs : L < siglen) :
    ∀ i, i < values.length →
      (ensure_siglen values siglen).getD i [] =
        List.replicate ((siglen - L) / 2) 0 ++ values.getD i [] ++
          List.replicate ((siglen - L + 1) / 2) 0 ∧
      ((ensure_siglen values siglen).getD i []).length = siglen := by
  intro i hi
  have hne : values ≠ [] := by
    intro hcon
    rw [hcon] at hi
    exact absurd hi (by simp)
  have hhead := headD_length_of_uniform values L hL hne
  have hmem : values.getD i [] ∈ values := by
    rw [List.getD_eq_getElem?_getD, List.getElem?_eq_getElem hi]
    exact List.getElem_mem hi
  have hlen : (values.getD i []).length = L := hL _ hmem
  have hpad : siglen - L - (siglen - L) / 2 = (siglen - L + 1) / 2 := by omega
  rw [ensure_siglen_pad values siglen (by rw [hhead]; omega)]
  rw [getD_map_of_lt values _ i hi, hhead, hpad]
  refine ⟨rfl, ?_⟩
  simp only [List.length_append, List.length_replicate, hlen]
  omega

/-- Witness for C2: on the single-lead signal `[1,2,3,4,5]` cropped to
length 3, sample 0 of the output is sample `(5-3)/2 + 0 = 1` of the input,
namely `2`. -/
theorem ensure_siglen_central_crop_witness :
    ((ensure_siglen [[(1 : ℤ), 2, 3, 4, 5]] 3).getD 0 []).getD 0 0 = 2 := by
  have h := (ensure_siglen_central_crop [[(1 : ℤ), 2, 3, 4, 5]] 3 5
    (by decide) (by decide)).1 0 (by decide) 0 (by decide)
  rw [h]
  decide

/-- Witness for C3: the single-lead signal `[1,2,3]` padded to length 6
(deficit 3) gives one leading zero and two trailing zeros. -/
theorem ensure_siglen_pad_symmetric_witness :
    (ensure_siglen [[(1 : ℤ), 2, 3]] 6).getD 0 [] = [0, 1, 2, 3, 0, 0] ∧
    ((ensure_siglen [[(1 : ℤ), 2, 3]] 6).getD 0 []).length = 6 := by
  have h := ensure_siglen_pad_symmetric [[(1 : ℤ), 2, 3]] 6 3
    (by decide) (by decide) 0 (by decide)
  refine ⟨?_, h.2⟩
  rw [h.1]
  decide

/-! ## Train/test split (`dataset.py`, `CINC2021._train_test_split` and
`CINC2021._check_train_test_split_validity`)

Python (per tranche `t`):
```
is_valid = False
while not is_valid:
    shuffle(tranche_records[t])
    split_idx = int(len(tranche_records[t]) * train_ratio)
    train_set[t] = tranche_records[t][:split_idx]
    test_set[t] = tranche_records[t][split_idx:]
    is_valid = self._check_train_test_split_validity(
        train_set[t], test_set[t], set(self.config.tranche_classes[t]))
```
and the validity check computes
`train_classes = set(list_sum(get_labels(rec) for rec in train_set)) ∩ all_classes`
(likewise for test) and returns
`len(all_classes) == len(train_classes) == len(test_classes)`.

Records and class names are abstract types; `get_labels` abstracts
`self.reader.get_labels(rec, fmt="a")`; the in-place `shuffle` is modelled
by a sequence `shuffles : ℕ → List α` of shuffle outcomes.  `train_ratio`
is a rational in `[0, 1]`, and Python's `int()` truncation of the
nonnegative product `len * train_ratio` is `⌊·⌋.toNat`. -/

def split_index (n : ℕ) ( train_ratio : ℚ) : ℕ :=
  (⌊ train_ratio * n⌋).toNat

def train_test_partition {α : Type} (shuffled : List α) ( train_ratio : ℚ) :
    List α × List α :=
  let split_idx := split_index shuffled.length train_ratio
  (shuffled.take split_idx, shuffled.drop split_idx)

/-- Python `set(list_sum([get_labels(rec) for rec in recs]))`. -/
def classes_of {α C : Type} [DecidableEq C] (get_labels : α → List C)
    (recs : List α) : Finset C :=
  ((recs.map get_labels).flatten).toFinset

/-- The check `CINC2021._check_train_test_split_validity`. -/
def check_train_test_split_validity {α C : Type} [DecidableEq C]
    (get_labels : α → List C) (train_set test_set : List α)
    (all_classes : Finset C) : Bool :=
  let train_classes := classes_of get_labels train_set ∩ all_classes
  let test_classes := classes_of get_labels test_set ∩ all_classes
  decide (all_classes.card = train_classes.card ∧
    train_classes.card = test_classes.card)

/-- The retry loop of `_train_test_split` for one tranche, with explicit
fuel: `none` models non-termination within the given fuel, `some` a normal
exit of the `while` loop. -/
def train_test_split_loop {α C : Type} [DecidableEq C]
    (get_labels : α → List C) (shuffles : ℕ → List α) ( train_ratio : ℚ)
    (all_classes : Finset C) : ℕ → Option (List α × List α)
  | 0 => none
  | fuel + 1 =>
    let recs := shuffles fuel
    let p := train_test_partition recs train_ratio
    if check_train_test_split_validity get_labels p.1 p.2 all_classes then
      some p
    else
      train_test_split_loop get_labels shuffles train_ratio all_classes fuel

/-- The validity check accepts exactly when both sides cover the whole
tranche vocabulary. -/
lemma check_validity_iff {α C : Type} [DecidableEq C]
    (get_labels : α → List C) (tr te : List α) (all_classes : Finset C) :
    check_train_test_split_validity get_labels tr te all_classes = true ↔
      classes_of get_labels tr ∩ all_classes = all_classes ∧
      classes_of get_labels te ∩ all_classes = all_classes := by
  simp only [check_train_test_split_validity, decide_eq_true_eq]
  constructor
  · rintro ⟨h1, h2⟩
    refine ⟨Finset.eq_of_subset_of_card_le Finset.inter_subset_right h1.le, ?_⟩
    exact Finset.eq_of_subset_of_card_le Finset.inter_subset_right
      (h1.trans h2).le
  · rintro ⟨h1, h2⟩
    rw [h1, h2]
    exact ⟨rfl, rfl⟩

/-- The loop's exit value always passes the check. -/
lemma split_loop_some_check {α C : Type} [DecidableEq C]
    (get_labels : α → List C) (shuffles : ℕ → List α) ( train_ratio : ℚ)
    (all_classes : Finset C) :
    ∀ (fuel : ℕ) (tr te : List α),
      train_test_split_loop get_labels shuffles train_ratio all_classes fuel =
        some (tr, te) →
      check_train_test_split_validity get_labels tr te all_classes = true := by
  intro fuel
  induction fuel with
  | zero =>
      intro tr te h
      exact absurd h (by simp [train_test_split_loop])
  | succ n ih =>
      intro tr te hsome
      rw [train_test_split_loop] at hsome
      by_cases hchk : check_train_test_split_validity get_labels
          (train_test_partition (shuffles n) train_ratio).1
          (train_test_partition (shuffles n) train_ratio).2 all_classes = true
      · rw [if_pos hchk] at hsome
        have hp := Option.some.inj hsome
        have h1 : (train_test_partition (shuffles n) train_ratio).1 = tr :=
          congrArg Prod.fst hp
        have h2 : (train_test_partition (shuffles n) train_ratio).2 = te :=
          congrArg Prod.snd hp
        rw [← h1, ← h2]
        exact hchk
      · rw [if_neg hchk] at hsome
        exact ih tr te hsome

/-- C1: the retry loop of `_train_test_split` exits only with a partition
accepted by `_check_train_test_split_validity`, and the check accepts
`(train_set, test_set)` iff the labels of the train records intersected
with `all_classes` equal `all_classes`, and likewise for the test records. -/
theorem split_loop_exits_valid {α C : Type} [DecidableEq C]
    (get_labels : α → List C) (shuffles : ℕ → List α) ( train_ratio : ℚ)
    (all_classes : Finset C) (fuel : ℕ) (tr te : List α)
    (hsome : train_test_split_loop get_labels shuffles train_ratio all_classes
      fuel = some (tr, te)) :
    check_train_test_split_validity get_labels tr te all_classes = true ∧
    (∀ tr' te' : List α,
      check_train_test_split_validity get_labels tr' te' all_classes = true ↔
        classes_of get_labels tr' ∩ all_classes = all_classes ∧
        classes_of get_labels te' ∩ all_classes = all_classes) :=
  ⟨split_loop_some_check get_labels shuffles train_ratio all_classes fuel
      tr te hsome,
    fun tr' te' => check_validity_iff get_labels tr' te' all_classes⟩

/-- Witness for C1: with records `[10, 20]`, each labelled with class `0`,
ratio `1/2` and vocabulary `{0}`, the loop exits at once with `([10], [20])`
and the check accepts it. -/
theorem split_loop_exits_valid_witness :
    check_train_test_split_validity (fun _ : ℕ => [(0 : ℕ)]) [10] [20]
      ({0} : Finset ℕ) = true := by
  have hpart : train_test_partition ([(10 : ℕ), 20]) (1 / 2) = ([10], [20]) := by
    simp only [train_test_partition]
    norm_num [split_index]
  have hloop : train_test_split_loop (fun _ : ℕ => [(0 : ℕ)])
      (fun _ : ℕ => [(10 : ℕ), 20]) (1 / 2) ({0} : Finset ℕ) 1 =
      some ([10], [20]) := by
    rw [train_test_split_loop]
    simp only [hpart]
    decide
  exact (split_loop_exits_valid (fun _ : ℕ => [(0 : ℕ)])
    (fun _ : ℕ => [(10 : ℕ), 20]) (1 / 2) ({0} : Finset ℕ) 1 [10] [20] hloop).1

/-- C8 counterexample: for a tranche with `N = 3` eligible records and
`train_ratio = 1/2`, the code computes `int(3 * 0.5) = 1` train records,
whereas `round(0.5 × 3) = 2`; the train side does not have
`round(train_ratio × N)` records. -/
theorem split_index_ne_round :
    split_index 3 (1 / 2) = 1 ∧ round ((1 / 2 : ℚ) * 3) = 2 ∧
    (train_test_partition [(1 : ℕ), 2, 3] (1 / 2)).1.length ≠
      (round ((1 / 2 : ℚ) * 3)).toNat := by
  have h : split_index 3 (1 / 2) = 1 := by
    rw [split_index]; norm_num
  have hr : round ((1 / 2 : ℚ) * 3) = 2 := by norm_num [round_eq]
  refine ⟨h, hr, ?_⟩
  rw [hr]
  simp only [train_test_partition]
  norm_num [split_index]
  decide

/-- C8 amended: the splitter assigns the first `⌊ train_ratio × N⌋` records
of the shuffled tranche (Python `int()` truncation of the nonnegative
product) to the train side and the remaining `N - ⌊ train_ratio × N⌋` to the
test side. -/
theorem train_test_partition_sizes {α : Type} (shuffled : List α)
    ( train_ratio : ℚ) (h0 : 0 ≤ train_ratio) (h1 : train_ratio ≤ 1) :
    (train_test_partition shuffled train_ratio).1.length =
      (⌊ train_ratio * shuffled.length⌋).toNat ∧
    (train_test_partition shuffled train_ratio).2.length =
      shuffled.length - (⌊ train_ratio * shuffled.length⌋).toNat ∧
    (train_test_partition shuffled train_ratio).1 ++
      (train_test_partition shuffled train_ratio).2 = shuffled := by
  have hle : split_index shuffled.length train_ratio ≤ shuffled.length := by
    rw [split_index]
    have hmul : train_ratio * (shuffled.length : ℚ) ≤ (shuffled.length : ℚ) := by
      calc train_ratio * (shuffled.length : ℚ)
          ≤ 1 * (shuffled.length : ℚ) := by
            exact mul_le_mul_of_nonneg_right h1 (by positivity)
        _ = (shuffled.length : ℚ) := one_mul _
    have := Int.floor_le_floor hmul
    rw [Int.floor_natCast] at this
    omega
  refine ⟨?_, ?_, ?_⟩
  · simp only [train_test_partition, List.length_take]
    rw [split_index] at hle ⊢
    omega
  · simp only [train_test_partition, List.length_drop]
    rw [split_index]
  · simp only [train_test_partition]
    exact List.take_append_drop _ _

/-- Witness for the amended C8: 5 records at ratio `4/5` give 4 train
records and 1 test record. -/
theorem train_test_partition_sizes_witness :
    (train_test_partition [(0 : ℕ), 1, 2, 3, 4] (4 / 5)).1.length = 4 ∧
    (train_test_partition [(0 : ℕ), 1, 2, 3, 4] (4 / 5)).2.length = 1 := by
  have h := train_test_partition_sizes [(0 : ℕ), 1, 2, 3, 4] (4 / 5)
    (by norm_num) (by norm_num)
  constructor
  · rw [h.1]; norm_num; decide
  · rw [h.2.1]; norm_num; decide

/-! ## Checkpoint rotation (`official_phase_legacy/trainer.py`, `train`)

Python (end of every epoch; `saved_models` is a `deque`, initially empty):
```
saved_models.append(save_path)
if len(saved_models) > config.keep_checkpoint_max > 0:
    model_to_remove = saved_models.popleft()
    try:
        os.remove(model_to_remove)
    except: ...
```
The chained comparison means `len(saved_models) > keep_checkpoint_max`
**and** `keep_checkpoint_max > 0`.  Checkpoint paths are abstract. -/

def update_checkpoints {P : Type} (keep_checkpoint_max : ℤ) (saved_models : List P)
    (save_path : P) : List P :=
  let q := saved_models ++ [save_path]
  if (q.length : ℤ) > keep_checkpoint_max ∧ keep_checkpoint_max > 0 then
    q.tail
  else
    q

/-- The queue after the epoch-end writes in `paths` have happened, in order. -/
def saved_models_after {P : Type} (keep_checkpoint_max : ℤ) (paths : List P) :
    List P :=
  paths.foldl (update_checkpoints keep_checkpoint_max) []

/-- Invariant of the rotation fold: starting from a queue not longer than the
cap, the fold keeps exactly the most recent `keep_checkpoint_max` entries. -/
lemma foldl_update_checkpoints {P : Type} (k : ℤ) (hk : 0 < k) :
    ∀ (ps q : List P), q.length ≤ k.toNat →
      ps.foldl (update_checkpoints k) q =
        (q ++ ps).drop ((q ++ ps).length - k.toNat) := by
  intro ps
  induction ps with
  | nil =>
      intro q hq
      simp only [List.foldl_nil, List.append_nil]
      rw [Nat.sub_eq_zero_of_le hq, List.drop_zero]
  | cons p rest ih =>
      intro q hq
      rw [List.foldl_cons]
      by_cases hc : ((q ++ [p]).length : ℤ) > k ∧ k > 0
      · have hfull : q.length = k.toNat := by
          have h1 := hc.1
          simp only [List.length_append, List.length_singleton] at h1
          omega
        have hstep : update_checkpoints k q p = (q ++ [p]).tail := by
          simp only [update_checkpoints]
          rw [if_pos hc]
        have htl : (q ++ [p]).tail.length ≤ k.toNat := by
          simp only [List.length_tail, List.length_append, List.length_singleton]
          omega
        rw [hstep, ih _ htl]
        have harith1 : ((q ++ [p]).tail ++ rest).length - k.toNat = rest.length := by
          simp only [List.length_append, List.length_tail, List.length_singleton]
          omega
        have harith2 : (q ++ p :: rest).length - k.toNat = rest.length + 1 := by
          simp only [List.length_append, List.length_cons]
          omega
        rw [harith1, harith2]
        have hassoc : q ++ p :: rest = (q ++ [p]) ++ rest := by simp
        rw [hassoc]
        cases hqp : q ++ [p] with
        | nil => exact absurd hqp (by simp)
        | cons a l =>
            simp only [List.tail_cons, List.cons_append, List.drop_succ_cons]
      · have hle : (q ++ [p]).length ≤ k.toNat := by
          rcases not_and_or.mp hc with h | h
          · have := not_lt.mp h
            omega
          · exact absurd hk (by omega)
        have hstep : update_checkpoints k q p = q ++ [p] := by
          simp only [update_checkpoints]
          rw [if_neg hc]
        rw [hstep, ih _ hle]
        simp [List.append_assoc]

/-- With the cap disabled (`keep_checkpoint_max ≤ 0`) the fold never removes
anything. -/
lemma foldl_update_checkpoints_nocap {P : Type} (k : ℤ) (hk : k ≤ 0) :
    ∀ (ps q : List P), ps.foldl (update_checkpoints k) q = q ++ ps := by
  intro ps
  induction ps with
  | nil => intro q; simp
  | cons p rest ih =>
      intro q
      rw [List.foldl_cons]
      have hstep : update_checkpoints k q p = q ++ [p] := by
        simp only [update_checkpoints]
        rw [if_neg]
        rintro ⟨-, h2⟩
        omega
      rw [hstep, ih]
      simp

/-- C4: with `0 < keep_checkpoint_max < M`, after `M` epoch-end checkpoint
writes exactly `keep_checkpoint_max` paths remain in the queue and they are
the most recent ones; with `keep_checkpoint_max ≤ 0` no path is ever
removed. -/
theorem checkpoint_rotation {P : Type} (keep_checkpoint_max : ℤ)
    (paths : List P) :
    (0 < keep_checkpoint_max → keep_checkpoint_max < (paths.length : ℤ) →
      (saved_models_after keep_checkpoint_max paths).length =
        keep_checkpoint_max.toNat ∧
      saved_models_after keep_checkpoint_max paths =
        paths.drop (paths.length - keep_checkpoint_max.toNat)) ∧
    (keep_checkpoint_max ≤ 0 →
      saved_models_after keep_checkpoint_max paths = paths) := by
  constructor
  · intro hk hM
    have h := foldl_update_checkpoints keep_checkpoint_max hk paths []
      (by simp)
    rw [saved_models_after, h]
    simp only [List.nil_append]
    refine ⟨?_, by simp⟩
    rw [List.length_drop]
    omega
  · intro hk
    rw [saved_models_after, foldl_update_checkpoints_nocap keep_checkpoint_max hk]
    simp

/-- Witness for C4: cap 2, five writes `[0,1,2,3,4]` leave `[3, 4]`; cap
`-1` keeps all five. -/
theorem checkpoint_rotation_witness :
    saved_models_after 2 [(0 : ℕ), 1, 2, 3, 4] = [3, 4] ∧
    saved_models_after (-1) [(0 : ℕ), 1, 2, 3, 4] = [0, 1, 2, 3, 4] := by
  have h := checkpoint_rotation 2 [(0 : ℕ), 1, 2, 3, 4]
  have h' := checkpoint_rotation (-1) [(0 : ℕ), 1, 2, 3, 4]
  refine ⟨?_, h'.2 (by norm_num)⟩
  rw [(h.1 (by norm_num) (by norm_num)).2]
  decide

/-! ## Flooding regularisation (`official_phase_legacy/trainer.py`, `train`)

Python (one training step, after `loss = criterion(preds, labels)`):
```
if config.flooding_level > 0:
    flood = (loss - config.flooding_level).abs() + config.flooding_level
    epoch_loss += loss.item()
    optimizer.zero_grad()
    flood.backward()
else:
    epoch_loss += loss.item()
    optimizer.zero_grad()
    loss.backward()
```
The result records the value backpropagated (`flood.backward()` or
`loss.backward()`) and the running epoch loss after the step. -/

def train_step_backprop (flooding_level loss epoch_loss : ℚ) : ℚ × ℚ :=
  if flooding_level > 0 then
    (|loss - flooding_level| + flooding_level, epoch_loss + loss)
  else
    (loss, epoch_loss + loss)

/-- C5: with `flooding_level > 0` the backpropagated quantity is
`|loss - flooding_level| + flooding_level` while the running epoch loss
grows by the unmodified `loss`; with `flooding_level ≤ 0` the raw loss is
backpropagated. -/
theorem flooding_decouples_backprop_from_log
    (flooding_level loss epoch_loss : ℚ) :
    (0 < flooding_level →
      (train_step_backprop flooding_level loss epoch_loss).1 =
        |loss - flooding_level| + flooding_level ∧
      (train_step_backprop flooding_level loss epoch_loss).2 =
        epoch_loss + loss) ∧
    (flooding_level ≤ 0 →
      (train_step_backprop flooding_level loss epoch_loss).1 = loss ∧
      (train_step_backprop flooding_level loss epoch_loss).2 =
        epoch_loss + loss) := by
  constructor
  · intro h
    rw [train_step_backprop, if_pos h]
    exact ⟨rfl, rfl⟩
  · intro h
    rw [train_step_backprop, if_neg (not_lt.mpr h)]
    exact ⟨rfl, rfl⟩

/-- Witness for C5: `flooding_level = 1/10`, true loss `1/20 = 0.05`:
the backpropagated value is `3/20 = 0.15`, the logged loss stays `1/20`. -/
theorem flooding_decouples_backprop_from_log_witness :
    (train_step_backprop (1 / 10) (1 / 20) 0).1 = 3 / 20 ∧
    (train_step_backprop (1 / 10) (1 / 20) 0).2 = 1 / 20 := by
  have h := (flooding_decouples_backprop_from_log (1 / 10) (1 / 20) 0).1
    (by norm_num)
  refine ⟨?_, by rw [h.2]; norm_num⟩
  rw [h.1]
  rw [show (1 / 20 : ℚ) - 1 / 10 = -(1 / 20) by norm_num, abs_neg,
    abs_of_nonneg (by norm_num : (0 : ℚ) ≤ 1 / 20)]
  norm_num

/-! ## Early stopping (`official_phase_legacy/trainer.py`, `train`)

Python (after evaluating epoch `epoch`, a 0-based loop counter; the
monitor state is initialised to `best_challenge_metric = -np.inf`,
`best_epoch = -1`, `pseudo_best_epoch = -1`):
```
if eval_res[6] > best_challenge_metric:
    best_challenge_metric = eval_res[6]
    best_epoch = epoch + 1
    pseudo_best_epoch = epoch + 1
elif config.early_stopping:
    if eval_res[6] >= best_challenge_metric - config.early_stopping.min_delta:
        pseudo_best_epoch = epoch + 1
    elif epoch - pseudo_best_epoch >= config.early_stopping.patience:
        break
```
Metrics are rationals; the initial `-np.inf` is modelled as `none`, against
which every metric compares as strictly greater. -/

structure EarlyStoppingConfig where
  min_delta : ℚ
  patience : ℤ

structure MonitorState where
  best_challenge_metric : Option ℚ
  best_epoch : ℤ
  pseudo_best_epoch : ℤ

def initial_monitor_state : MonitorState := ⟨none, -1, -1⟩

/-- Python `eval_res[6] > best_challenge_metric` (nothing beats `-inf`). -/
def exceeds_best (metric : ℚ) : Option ℚ → Bool
  | none => true
  | some best => decide (best < metric)

/-- Python `eval_res[6] >= best_challenge_metric - min_delta`. -/
def within_min_delta (metric : ℚ) (best : Option ℚ) (min_delta : ℚ) : Bool :=
  match best with
  | none => true
  | some best => decide (best - min_delta ≤ metric)

/-- One epoch of the monitor; the boolean is `true` iff the epoch loop
continues (no `break`). -/
def epoch_monitor_update (early_stopping : Option EarlyStoppingConfig)
    (epoch : ℕ) (metric : ℚ) (st : MonitorState) : MonitorState × Bool :=
  if exceeds_best metric st.best_challenge_metric then
    ({ best_challenge_metric := some metric, best_epoch := (epoch : ℤ) + 1,
       pseudo_best_epoch := (epoch : ℤ) + 1 }, true)
  else
    match early_stopping with
    | none => (st, true)
    | some es =>
        if within_min_delta metric st.best_challenge_metric es.min_delta then
          ({ st with pseudo_best_epoch := (epoch : ℤ) + 1 }, true)
        else if (epoch : ℤ) - st.pseudo_best_epoch ≥ es.patience then
          (st, false)
        else
          (st, true)

/-- How many epochs the training loop executes on the given metric
sequence, counting the epoch in which `break` fires. -/
def run_epochs_from (early_stopping : Option EarlyStoppingConfig)
    (st : MonitorState) (epoch : ℕ) : List ℚ → ℕ
  | [] => 0
  | metric :: rest =>
      let r := epoch_monitor_update early_stopping epoch metric st
      if r.2 then
        1 + run_epochs_from early_stopping r.1 (epoch + 1) rest
      else
        1

def epochs_run (early_stopping : Option EarlyStoppingConfig)
    (metrics : List ℚ) : ℕ :=
  run_epochs_from early_stopping initial_monitor_state 0 metrics

/-- C7 counterexample: `min_delta = 0`, `patience = 1`, metric sequence
`[10, 0, 0]`.  After the first epoch the marker is `1` (so the claim's
"set to the current epoch" already disagrees with the 0-based counter).  In
the second epoch (1-based number 2) the metric is neither best nor
near-best and `current_epoch - pseudo_best_epoch = 2 - 1 ≥ patience`, so
the claim says training terminates there, yet the code continues; the run
executes 3 epochs, not 2. -/
theorem early_stopping_patience_counterexample :
    epoch_monitor_update (some ⟨0, 1⟩) 0 10 initial_monitor_state =
      (⟨some 10, 1, 1⟩, true) ∧
    exceeds_best 0 (some 10) = false ∧
    within_min_delta 0 (some 10) 0 = false ∧
    ((1 : ℤ) + 1) - 1 ≥ (1 : ℤ) ∧
    (epoch_monitor_update (some ⟨0, 1⟩) 1 0 ⟨some 10, 1, 1⟩).2 = true ∧
    epochs_run (some ⟨0, 1⟩) [10, 0, 0] = 3 := by
  have hex : exceeds_best 0 (some 10) = false := by decide
  have hwd : within_min_delta 0 (some 10) 0 = false := by
    simp only [within_min_delta, decide_eq_false_iff_not]
    norm_num
  have h1 : epoch_monitor_update (some ⟨0, 1⟩) 0 10 initial_monitor_state =
      (⟨some 10, 1, 1⟩, true) := rfl
  have h2 : epoch_monitor_update (some ⟨0, 1⟩) 1 0 ⟨some 10, 1, 1⟩ =
      (⟨some 10, 1, 1⟩, true) := by
    simp only [epoch_monitor_update, hex, Bool.false_eq_true, if_false, hwd]
    norm_num
  have h3 : epoch_monitor_update (some ⟨0, 1⟩) 2 0 ⟨some 10, 1, 1⟩ =
      (⟨some 10, 1, 1⟩, false) := by
    simp only [epoch_monitor_update, hex, Bool.false_eq_true, if_false, hwd]
    norm_num
  refine ⟨h1, hex, hwd, by norm_num, by rw [h2], ?_⟩
  rw [epochs_run, run_epochs_from]
  simp only [h1, if_true]
  rw [run_epochs_from]
  simp only [h2, if_true]
  rw [run_epochs_from]
  simp only [h3, Bool.false_eq_true, if_false]

/-- C7 amended: in a non-improving epoch with early stopping configured, a
metric within `min_delta` of the best sets the marker to `epoch + 1` (the
1-based number of the current epoch) and training continues; otherwise the
loop breaks exactly when the 0-based counter satisfies
`epoch - pseudo_best_epoch ≥ patience`, i.e. in consistent 1-based
numbering when `current_epoch - pseudo_best_epoch ≥ patience + 1`. -/
theorem early_stopping_behavior (es : EarlyStoppingConfig) (epoch : ℕ)
    (metric : ℚ) (st : MonitorState)
    (hnb : exceeds_best metric st.best_challenge_metric = false) :
    (within_min_delta metric st.best_challenge_metric es.min_delta = true →
      epoch_monitor_update (some es) epoch metric st =
        ({ st with pseudo_best_epoch := (epoch : ℤ) + 1 }, true)) ∧
    (within_min_delta metric st.best_challenge_metric es.min_delta = false →
      (epoch_monitor_update (some es) epoch metric st).1 = st ∧
      ((epoch_monitor_update (some es) epoch metric st).2 = false ↔
        ((epoch : ℤ) + 1) - st.pseudo_best_epoch ≥ es.patience + 1)) := by
  constructor
  · intro hw
    simp only [epoch_monitor_update, hnb, Bool.false_eq_true, if_false, hw,
      if_true]
  · intro hw
    simp only [epoch_monitor_update, hnb, Bool.false_eq_true, if_false, hw]
    by_cases hp : (epoch : ℤ) - st.pseudo_best_epoch ≥ es.patience
    · rw [if_pos hp]
      exact ⟨rfl, by simp; omega⟩
    · rw [if_neg hp]
      refine ⟨rfl, ?_⟩
      simp only [Bool.true_eq_false, false_iff]
      omega

/-- Witness for the amended C7: at 0-based epoch 1 with marker 1 and
patience 1, `(1+1) - 1 < 1 + 1`, so the loop continues. -/
theorem early_stopping_behavior_witness :
    (epoch_monitor_update (some ⟨0, 1⟩) 1 0 ⟨some 10, 1, 1⟩).2 = true := by
  have h := (early_stopping_behavior ⟨0, 1⟩ 1 0 ⟨some 10, 1, 1⟩ (by decide)).2
    (by simp only [within_min_delta, decide_eq_false_iff_not]; norm_num)
  have hno : ¬ ((((1 : ℕ) : ℤ) + 1) - (1 : ℤ) ≥ (1 : ℤ) + 1) := by norm_num
  rcases Bool.eq_false_or_eq_true
      (epoch_monitor_update (some ⟨0, 1⟩) 1 0 ⟨some 10, 1, 1⟩).2 with ht | hf
  · exact ht
  · exact absurd (h.2.mp hf) hno

/-! ## Fail-fast optimizer/scheduler selection
(`official_phase_legacy/trainer.py`, `train`)

Python (before the epoch loop):
```
if config.train_optimizer.lower() == "adam": optimizer = optim.Adam(...)
elif config.train_optimizer.lower() in ["adamw", "adamw_amsgrad"]:
    optimizer = optim.AdamW(...,
        amsgrad=config.train_optimizer.lower().endswith("amsgrad"))
elif config.train_optimizer.lower() == "sgd": optimizer = optim.SGD(...)
else: raise NotImplementedError(f"optimizer `{config.train_optimizer}` not implemented!")

if config.lr_scheduler is None: scheduler = None
elif config.lr_scheduler.lower() == "plateau": ...
elif config.lr_scheduler.lower() == "step": ...
elif config.lr_scheduler.lower() in ["one_cycle", "onecycle"]: ...
else: raise NotImplementedError(
    f"lr scheduler `{config.lr_scheduler.lower()}` not implemented for training")
```
Names are character lists; Python's `str.lower()` (ASCII identifiers here)
is `List.map Char.toLower`, and raised `NotImplementedError`s are `.error`
values that abort `train` before its epoch/step loop runs. -/

def str_lower (s : List Char) : List Char := s.map Char.toLower

inductive Optimizer : Type
  | adam : Optimizer
  | adamw : Bool → Optimizer
  | sgd : Optimizer

inductive Scheduler : Type
  | noScheduler : Scheduler
  | plateau : Scheduler
  | stepLR : Scheduler
  | oneCycle : Scheduler

def select_optimizer (train_optimizer : List Char) : Except (List Char) Optimizer :=
  if str_lower train_optimizer = "adam".toList then
    .ok .adam
  else if str_lower train_optimizer ∈ ["adamw".toList, "adamw_amsgrad".toList] then
    .ok (.adamw (("amsgrad".toList).isSuffixOf (str_lower train_optimizer)))
  else if str_lower train_optimizer = "sgd".toList then
    .ok .sgd
  else
    .error ("optimizer `".toList ++ train_optimizer ++ "` not implemented!".toList)

def select_scheduler (lr_scheduler : Option (List Char)) :
    Except (List Char) Scheduler :=
  match lr_scheduler with
  | none => .ok .noScheduler
  | some s =>
      if str_lower s = "plateau".toList then
        .ok .plateau
      else if str_lower s = "step".toList then
        .ok .stepLR
      else if str_lower s ∈ ["one_cycle".toList, "onecycle".toList] then
        .ok .oneCycle
      else
        .error ("lr scheduler `".toList ++ str_lower s ++
          "` not implemented for training".toList)

/-- The configuration phase of `train`: optimizer then scheduler; any error
aborts before the training loop. -/
def train_setup (train_optimizer : List Char)
    (lr_scheduler : Option (List Char)) :
    Except (List Char) (Optimizer × Scheduler) :=
  match select_optimizer train_optimizer with
  | .error e => .error e
  | .ok opt =>
      match select_scheduler lr_scheduler with
      | .error e => .error e
      | .ok sch => .ok (opt, sch)

/-- The function `train` up to and including its step loop: on a setup error nothing of
the loop runs; otherwise all `n_steps` training steps execute. -/
def train_run (train_optimizer : List Char) (lr_scheduler : Option (List Char))
    (n_steps : ℕ) : Except (List Char) ℕ :=
  match train_setup train_optimizer lr_scheduler with
  | .error e => .error e
  | .ok _ => .ok n_steps

/-- An unknown optimizer name makes `select_optimizer` raise. -/
lemma select_optimizer_error (train_optimizer : List Char)
    (h : str_lower train_optimizer ∉
      ["adam".toList, "adamw".toList, "adamw_amsgrad".toList, "sgd".toList]) :
    ∃ e, select_optimizer train_optimizer = .error e := by
  simp only [List.mem_cons, List.not_mem_nil, or_false, not_or] at h
  obtain ⟨h1, h2, h3, h4⟩ := h
  refine ⟨"optimizer `".toList ++ train_optimizer ++ "` not implemented!".toList, ?_⟩
  rw [select_optimizer, if_neg h1, if_neg ?_, if_neg h4]
  intro hc
  rcases List.mem_cons.mp hc with h' | h'
  · exact h2 h'
  · rcases List.mem_cons.mp h' with h'' | h''
    · exact h3 h''
    · exact absurd h'' (List.not_mem_nil _)

/-- An unknown scheduler name makes `select_scheduler` raise. -/
lemma select_scheduler_error (s : List Char)
    (h : str_lower s ∉
      ["plateau".toList, "step".toList, "one_cycle".toList, "onecycle".toList]) :
    ∃ e, select_scheduler (some s) = .error e := by
  simp only [List.mem_cons, List.not_mem_nil, or_false, not_or] at h
  obtain ⟨h1, h2, h3, h4⟩ := h
  refine ⟨"lr scheduler `".toList ++ str_lower s ++
    "` not implemented for training".toList, ?_⟩
  rw [select_scheduler]
  rw [if_neg h1, if_neg h2, if_neg ?_]
  intro hc
  rcases List.mem_cons.mp hc with h' | h'
  · exact h3 h'
  · rcases List.mem_cons.mp h' with h'' | h''
    · exact h4 h''
    · exact absurd h'' (List.not_mem_nil _)

/-- C9: `train` fails with a "not implemented" error before any training
step executes whenever the optimizer name (lower-cased) is not one of
adam/adamw/adamw_amsgrad/sgd, or the scheduler is given and its
lower-cased name is not one of plateau/step/one_cycle/onecycle; no default
is substituted. -/
theorem train_fail_fast (train_optimizer : List Char)
    (lr_scheduler : Option (List Char)) (n_steps : ℕ)
    (h : str_lower train_optimizer ∉
        ["adam".toList, "adamw".toList, "adamw_amsgrad".toList, "sgd".toList] ∨
      ∃ s, lr_scheduler = some s ∧ str_lower s ∉
        ["plateau".toList, "step".toList, "one_cycle".toList,
          "onecycle".toList]) :
    ∃ e, train_run train_optimizer lr_scheduler n_steps = .error e := by
  rcases h with hopt | ⟨s, hs, hsch⟩
  · obtain ⟨e, he⟩ := select_optimizer_error train_optimizer hopt
    exact ⟨e, by rw [train_run, train_setup, he]⟩
  · subst hs
    cases hoc : select_optimizer train_optimizer with
    | error e => exact ⟨e, by rw [train_run, train_setup, hoc]⟩
    | ok o =>
        obtain ⟨e, he⟩ := select_scheduler_error s hsch
        exact ⟨e, by rw [train_run, train_setup, hoc, he]⟩

/-- Witness for C9: optimizer name "RMSprop" aborts `train` with an error
before any of its 5 steps run. -/
theorem train_fail_fast_witness :
    ∃ e, train_run "RMSprop".toList (some "plateau".toList) 5 = .error e :=
  train_fail_fast "RMSprop".toList (some "plateau".toList) 5
    (Or.inl (by decide))

/-! ## `evaluate` (`official_phase_legacy/trainer.py`)

Python:
```
model.eval()
prev_aug_status = data_loader.dataset.use_augmentation
data_loader.dataset.disable_data_augmentation()
...
for signals, labels in data_loader:
    ...
    preds, bin_preds = _model.inference(signals)   # may raise
...
model.train()
if prev_aug_status:
    data_loader.dataset.enable_data_augmentation()
return eval_res
```
There is no `try`/`finally`: an exception raised during inference
propagates with the dataset still in the disabled-augmentation state and
the model still in eval mode.  The mutable state is the dataset's
`use_augmentation` flag and the model's training-mode flag; the whole
inference/scoring middle section is a fallible computation `inference`. -/

structure EvalState where
  use_augmentation : Bool
  model_training : Bool

def evaluate {E R : Type} (inference : Except E R) (st : EvalState) :
    Except E R × EvalState :=
  let st1 : EvalState := { st with model_training := false }
  let prev_aug_status := st1.use_augmentation
  let st2 : EvalState := { st1 with use_augmentation := false }
  match inference with
  | .error e => (.error e, st2)
  | .ok r =>
      let st3 : EvalState := { st2 with model_training := true }
      let st4 : EvalState :=
        if prev_aug_status then { st3 with use_augmentation := true } else st3
      (.ok r, st4)

/-- C6 counterexample: entering `evaluate` with augmentation enabled and
inference raising, the flag afterwards is `false`, not its prior `true`. -/
theorem evaluate_augmentation_lost_on_error :
    (evaluate (Except.error (0 : ℕ) : Except ℕ ℕ)
      ⟨true, true⟩).2.use_augmentation = false ∧
    (⟨true, true⟩ : EvalState).use_augmentation = true :=
  ⟨rfl, rfl⟩

/-- C6 amended: when `evaluate` returns normally the dataset's
`use_augmentation` flag equals its value immediately before the call; when
inference raises, the flag is left `false` (disabled), whatever its prior
value. -/
theorem evaluate_augmentation_restoration {E R : Type}
    (inference : Except E R) (st : EvalState) :
    (∀ r st', evaluate inference st = (.ok r, st') →
      st'.use_augmentation = st.use_augmentation) ∧
    (∀ e st', evaluate inference st = (.error e, st') →
      st'.use_augmentation = false) := by
  constructor
  · intro r st' h
    cases inference with
    | error e => exact absurd (congrArg Prod.fst h) (by simp [evaluate])
    | ok r' =>
        have h2 := congrArg Prod.snd h
        simp only [evaluate] at h2
        rw [← h2]
        by_cases ha : st.use_augmentation
        · rw [if_pos ha, ha]
        · rw [if_neg ha]
          simp [Bool.eq_false_iff.mpr ha]
  · intro e st' h
    cases inference with
    | error e' =>
        have h2 := congrArg Prod.snd h
        simp only [evaluate] at h2
        rw [← h2]
    | ok r' => exact absurd (congrArg Prod.fst h) (by simp [evaluate])

/-- Witness for the amended C6: augmentation on, inference succeeds, the
flag is restored to `true`. -/
theorem evaluate_augmentation_restoration_witness :
    (evaluate (Except.ok (0 : ℕ) : Except ℕ ℕ)
      ⟨true, false⟩).2.use_augmentation = true := by
  have h := (evaluate_augmentation_restoration
      (Except.ok (0 : ℕ) : Except ℕ ℕ) ⟨true, false⟩).1 0
    (evaluate (Except.ok (0 : ℕ) : Except ℕ ℕ) ⟨true, false⟩).2 rfl
  exact h

/-- C10: whenever `evaluate` returns normally, the model is left in
training mode (`model.train()` runs before the return), whatever mode it
was in at entry. -/
theorem evaluate_leaves_model_training {E R : Type} (inference : Except E R)
    (st : EvalState) (r : R) (st' : EvalState)
    (h : evaluate inference st = (.ok r, st')) :
    st'.model_training = true := by
  cases inference with
  | error e => exact absurd (congrArg Prod.fst h) (by simp [evaluate])
  | ok r' =>
      have h2 := congrArg Prod.snd h
      simp only [evaluate] at h2
      rw [← h2]
      by_cases ha : st.use_augmentation
      · rw [if_pos ha]
      · rw [if_neg ha]

/-- Witness for C10: model entering in eval mode leaves in training mode. -/
theorem evaluate_leaves_model_training_witness :
    (evaluate (Except.ok (0 : ℕ) : Except ℕ ℕ)
      ⟨false, false⟩).2.model_training = true :=
  evaluate_leaves_model_training (Except.ok (0 : ℕ) : Except ℕ ℕ)
    ⟨false, false⟩ 0
    (evaluate (Except.ok (0 : ℕ) : Except ℕ ℕ) ⟨false, false⟩).2 rfl

end Cinc2021
